import Mathlib

/-!
Shallow embedding of the backtest simulation core of the repository.

The model follows `src/backtesting/backtest_engine.py` (`BacktestEngine`):
floating-point prices and capital are modelled as exact rationals (`ℚ`),
bar timestamps as the bar index (`ℕ`), the per-bar `Signal` column as an
integer-valued function (`1` = buy, `-1` = sell, `0` = hold, as in the
source), and the optional `calculate_stop_loss` / `calculate_take_profit`
strategy hooks as `ℕ → Option ℚ` functions giving the level chosen at the
entry bar.  The engine only ever reads the `Close` column of a bar, so a
price series is a `List ℚ` of closes.  `run` returns `none` exactly when
the source would die on the empty series (the unguarded `equity[0] = ...`
indexing); every other input completes and yields the result record.
-/

namespace BacktestEngine

/-- Configuration of the engine: `initial_capital` and `commission`
(the constructor arguments of `BacktestEngine.__init__`). -/
structure Config where
  initial_capital : ℚ
  commission : ℚ
  deriving DecidableEq

/-- The `exit_reason` values the repository ever writes into a trade dict:
`'stop_loss'` and `'take_profit'` in `BacktestEngine.run`, and additionally
`'end_of_backtest'` in the `Strategy.backtest` variants of
`src/core/strategy.py`. -/
inductive ExitReason where
  | stop_loss
  | take_profit
  | end_of_backtest
  deriving DecidableEq

/-- A completed trade record as appended to `self.trades` in
`BacktestEngine.run`.  The sell-signal branch (lines 102-119) never sets an
`exit_reason` key, which is modelled by `exit_reason = none`; the stop-loss
and take-profit branches set it. -/
structure Trade where
  entry_date : ℕ
  entry_price : ℚ
  shares : ℚ
  exit_date : ℕ
  exit_price : ℚ
  profit : ℚ
  profit_pct : ℚ
  exit_reason : Option ExitReason
  deriving DecidableEq

/-- The `self.current_trade` dict while a position is open (the fields
written at entry in lines 90-97; `type` is always `'long'` and is omitted). -/
structure OpenTrade where
  entry_date : ℕ
  entry_price : ℚ
  shares : ℚ
  stop_loss : Option ℚ
  take_profit : Option ℚ
  deriving DecidableEq

/-- The mutable engine attributes touched by `run`:
`self.capital`, `self.position`, `self.trades`, `self.current_trade`. -/
structure EngineState where
  capital : ℚ
  position : ℚ
  trades : List Trade
  current_trade : Option OpenTrade
  deriving DecidableEq

/-- `BacktestEngine.reset`. -/
def reset (cfg : Config) : EngineState :=
  { capital := cfg.initial_capital, position := 0, trades := [], current_trade := none }

/-- `BacktestEngine._calculate_position_size`: 95% of available capital
divided by the commission-inclusive price. -/
def calculate_position_size (cfg : Config) (capital price : ℚ) : ℚ :=
  (capital * (95 / 100)) / (price * (1 + cfg.commission))

/-- Close the open position `ct` at price `exit_price` on bar `i` with the
given (optional) exit reason: proceeds are credited commission-reduced, the
trade dict is appended, the position is cleared.  This is the common body of
the sell-signal, stop-loss and take-profit exit branches of `run`. -/
def closePosAt (cfg : Config) (i : ℕ) (exit_price : ℚ) (r : Option ExitReason)
    (s : EngineState) (ct : OpenTrade) : EngineState :=
  { capital := s.capital + s.position * exit_price * (1 - cfg.commission)
    position := 0
    trades := s.trades ++ [{ entry_date := ct.entry_date
                             entry_price := ct.entry_price
                             shares := ct.shares
                             exit_date := i
                             exit_price := exit_price
                             profit := s.position * exit_price * (1 - cfg.commission)
                                         - ct.shares * ct.entry_price * (1 + cfg.commission)
                             profit_pct := exit_price / ct.entry_price - 1
                             exit_reason := r }]
    current_trade := none }

/-- The take-profit check of `run` (lines 143-158): if a take-profit level is
set and the close is at or above it, exit exactly at that level. -/
def checkTP (cfg : Config) (i : ℕ) (price : ℚ) (s : EngineState) (ct : OpenTrade) : EngineState :=
  match ct.take_profit with
  | some v => if v ≤ price then closePosAt cfg i v (some ExitReason.take_profit) s ct else s
  | none => s

/-- The stop-loss-then-take-profit check of `run` (lines 122-158): stop-loss
is tested first (close at or below the level, exit exactly at the level),
take-profit only in its `elif`. -/
def checkSLTP (cfg : Config) (i : ℕ) (price : ℚ) (s : EngineState) (ct : OpenTrade) : EngineState :=
  match ct.stop_loss with
  | some v => if price ≤ v then closePosAt cfg i v (some ExitReason.stop_loss) s ct
              else checkTP cfg i price s ct
  | none => checkTP cfg i price s ct

/-- One iteration of the bar loop of `BacktestEngine.run` (lines 71-161) for
bar `i` with close `price` and signal `sig`, mirroring the `if`/`elif` chain:
buy when `signal == 1` and flat; else sell at the close when `signal == -1`
with a position (no `exit_reason` is recorded, and the trade is only appended
when `current_trade` is set); else, with an open position, check stop-loss
then take-profit against the close. -/
def stepBar (cfg : Config) (sl tp : ℕ → Option ℚ) (i : ℕ) (price : ℚ) (sig : Int)
    (s : EngineState) : EngineState :=
  if sig = 1 ∧ s.position = 0 then
    { capital := s.capital - calculate_position_size cfg s.capital price * price * (1 + cfg.commission)
      position := calculate_position_size cfg s.capital price
      trades := s.trades
      current_trade := some { entry_date := i, entry_price := price,
                              shares := calculate_position_size cfg s.capital price,
                              stop_loss := sl i, take_profit := tp i } }
  else if sig = -1 ∧ 0 < s.position then
    match s.current_trade with
    | some ct => closePosAt cfg i price none s ct
    | none =>
      { capital := s.capital + s.position * price * (1 - cfg.commission)
        position := 0
        trades := s.trades
        current_trade := none }
  else if 0 < s.position ∧ s.current_trade.isSome then
    match s.current_trade with
    | some ct => checkSLTP cfg i price s ct
    | none => s
  else s

/-- The bar loop of `run` over the remaining closes, `i` being the index of
the first remaining bar: returns the final engine state together with the
per-bar equity points (`capital + position * close`, line 164) and the
per-bar position sizes. -/
def runAux (cfg : Config) (sig : ℕ → Int) (sl tp : ℕ → Option ℚ) :
    ℕ → List ℚ → EngineState → EngineState × List ℚ × List ℚ
  | _, [], s => (s, [], [])
  | i, price :: rest, s =>
    let s' := stepBar cfg sl tp i price (sig i) s
    let r := runAux cfg sig sl tp (i + 1) rest s'
    (r.1, (s'.capital + s'.position * price) :: r.2.1, s'.position :: r.2.2)

/-- The result record of one run: the equity curve and position series
(seeded with `equity[0] = initial_capital` and `positions[0] = 0`), the
trade list, and the terminal engine attribute state. -/
structure RunOutput where
  equity_curve : List ℚ
  positions : List ℚ
  trades : List Trade
  final : EngineState
  deriving DecidableEq

/-- `BacktestEngine.run`: reset, then loop over bars `1..n-1`.  On the empty
series the source raises an unguarded `IndexError` at `equity[0] = ...`
before producing anything, modelled as `none`; any non-empty series runs to
completion. -/
def run (cfg : Config) (closes : List ℚ) (sig : ℕ → Int) (sl tp : ℕ → Option ℚ) :
    Option RunOutput :=
  match closes with
  | [] => none
  | _ :: rest =>
    let r := runAux cfg sig sl tp 1 rest (reset cfg)
    some { equity_curve := cfg.initial_capital :: r.2.1
           positions := 0 :: r.2.2
           trades := r.1.trades
           final := r.1 }

/-! ### Performance metrics (`BacktestEngine._calculate_performance_metrics`)

Only the Sharpe-ratio computation (lines 226-228 of the source) is needed by
the claims.  `equity_curve.pct_change().dropna()` keeps, for each adjacent
pair of equity points, the ratio change `e[i] / e[i-1] - 1` (the leading
`NaN` is dropped); `returns.std()` is the sample standard deviation with
denominator `n - 1`, so `std > 0` holds exactly when there are at least two
returns and the centered square sum is positive.  The square root forces the
result into `ℝ`; the zero-volatility guard, which is all the claims touch,
is the decidable test on the rational data. -/

/-- Per-bar percentage changes of a series, `pandas.Series.pct_change`
followed by `dropna` of the leading entry. -/
def pct_change : List ℚ → List ℚ
  | a :: b :: t => (b / a - 1) :: pct_change (b :: t)
  | _ => []

/-- Arithmetic mean of a list of rationals (`Series.mean`). -/
def mean (l : List ℚ) : ℚ := l.sum / l.length

/-- Sum of squared deviations from the mean — the numerator of the sample
variance used by `Series.std`. -/
def varSum (l : List ℚ) : ℚ := (l.map fun x => (x - mean l) ^ 2).sum

/-- Line 228 of the source:
`sharpe_ratio = np.sqrt(252) * returns.mean() / returns.std() if returns.std() > 0 else 0`
with `returns = equity_curve.pct_change().dropna()`. -/
noncomputable def sharpe_ratio (ec : List ℚ) : ℝ :=
  if 2 ≤ (pct_change ec).length ∧ 0 < varSum (pct_change ec) then
    Real.sqrt 252 * ((mean (pct_change ec) : ℚ) : ℝ)
      / Real.sqrt (((varSum (pct_change ec) / (((pct_change ec).length : ℚ) - 1) : ℚ) : ℝ))
  else 0

/-! ### Invariants of the trade records -/

/-- The two facts `run` guarantees for every trade dict it appends: the
recorded profit is the commission-inclusive round-trip profit computed from
the recorded shares, entry price and exit price, and the recorded
`exit_reason` is absent (sell-signal exit) or one of `'stop_loss'` /
`'take_profit'`. -/
def tradeInv (cfg : Config) (t : Trade) : Prop :=
  t.profit = t.shares * t.exit_price * (1 - cfg.commission)
               - t.shares * t.entry_price * (1 + cfg.commission) ∧
    (t.exit_reason = none ∨ t.exit_reason = some ExitReason.stop_loss ∨
      t.exit_reason = some ExitReason.take_profit)

/-- Inductive invariant of the engine state: all recorded trades satisfy
`tradeInv`, and while a trade is open `self.position` equals its share
count (the engine sells `self.position` shares but records
`current_trade['shares']` in the trade dict; the two agree). -/
def stateInv (cfg : Config) (s : EngineState) : Prop :=
  (∀ t ∈ s.trades, tradeInv cfg t) ∧
    ∀ ct, s.current_trade = some ct → s.position = ct.shares

/-! ### Concrete inputs used by the counterexamples and witnesses -/

/-- Configuration with `initial_capital = 1001` and commission rate `0.001`,
chosen so that every intermediate rational is small. -/
def cfg1 : Config := { initial_capital := 1001, commission := 1 / 1000 }

/-- The all-hold signal column. -/
def sigHold : ℕ → Int := fun _ => 0

/-- Buy at bar 1, sell at bar 2, hold elsewhere. -/
def sigRoundTrip : ℕ → Int := fun i => if i = 1 then 1 else if i = 2 then -1 else 0

/-- Buy at bar 1, hold afterwards. -/
def sigBuyOnly : ℕ → Int := fun i => if i = 1 then 1 else 0

/-- Buy at bar 0 (never read by the loop), hold elsewhere. -/
def sigBuyAtZero : ℕ → Int := fun i => if i = 0 then 1 else 0

/-- No stop-loss / take-profit hook (strategies without the optional
`calculate_stop_loss` / `calculate_take_profit` methods). -/
def levelNone : ℕ → Option ℚ := fun _ => none

/-- Stop-loss hook returning 95 at the entry bar 1. -/
def slAt95 : ℕ → Option ℚ := fun i => if i = 1 then some 95 else none

/-- Take-profit hook returning 110 at the entry bar 1. -/
def tpAt110 : ℕ → Option ℚ := fun i => if i = 1 then some 110 else none

/-- Exit price and exit reason of each recorded trade of a run. -/
def exitSummary (o : RunOutput) : List (ℚ × Option ExitReason) :=
  o.trades.map fun t => (t.exit_price, t.exit_reason)

/-- Exit reason of each recorded trade of a run. -/
def reasonsOf (o : RunOutput) : List (Option ExitReason) :=
  o.trades.map Trade.exit_reason

/-- Terminal position, whether a current trade is still open, and the number
of recorded trades of a run. -/
def dangling (o : RunOutput) : ℚ × Bool × ℕ :=
  (o.final.position, o.final.current_trade.isSome, o.trades.length)

/-- Length of the equity curve together with its first point. -/
def equityShape (o : RunOutput) : ℕ × Option ℚ :=
  (o.equity_curve.length, o.equity_curve.head?)

/-- Equity curve, trade list and terminal capital of a run. -/
def conservationShape (o : RunOutput) : List ℚ × List Trade × ℚ :=
  (o.equity_curve, o.trades, o.final.capital)

/-- The single trade produced by `run cfg1 [100, 100, 110] sigRoundTrip`:
entry at bar 1 at 100 with 9.5 shares, sell-signal exit at bar 2 at 110,
commission-inclusive profit 93.005, and no `exit_reason` recorded. -/
def trade1 : Trade :=
  { entry_date := 1, entry_price := 100, shares := 19 / 2, exit_date := 2, exit_price := 110,
    profit := 18601 / 200, profit_pct := 1 / 10, exit_reason := none }

/-- The full output of `run cfg1 [100, 100, 110] sigRoundTrip levelNone levelNone`. -/
def out1 : RunOutput :=
  { equity_curve := [1001, 20001 / 20, 218801 / 200]
    positions := [0, 19 / 2, 0]
    trades := [trade1]
    final := { capital := 218801 / 200, position := 0, trades := [trade1], current_trade := none } }

/-- An open long position of 1 share entered at 100 on bar 1 whose close
levels satisfy `take_profit = 105 ≤ close = 108 ≤ stop_loss = 110`, so that
both protective levels are breached by the same close. -/
def ct0 : OpenTrade :=
  { entry_date := 1, entry_price := 100, shares := 1, stop_loss := some 110, take_profit := some 105 }

/-- An engine state holding `ct0` open with matching position. -/
def st0 : EngineState :=
  { capital := 1000, position := 1, trades := [], current_trade := some ct0 }

theorem out1_spec : run cfg1 [100, 100, 110] sigRoundTrip levelNone levelNone = some out1 := by
  norm_num [run, runAux, stepBar, closePosAt, checkTP, checkSLTP, calculate_position_size,
    reset, cfg1, sigRoundTrip, levelNone, out1, trade1]

/-- C1, counterexample.  The claim's scenario run against the engine: a long
position opened at 100 on bar 1 with `stop_loss = 95` and `take_profit =
110`, and the next bar closing at 108 with a `Sell` signal present.  The
claim asserts the position is closed with reason `StopLoss` at exactly 95;
the engine instead closes it through the sell-signal branch at the bar's
close 108 with no `exit_reason` at all — the `elif` chain of `run` tests the
sell signal before the stop-loss/take-profit checks, and those checks only
ever compare the close (the bar's low/high are never read, so the claimed
intrabar breach `low = 90 ≤ 95` cannot even influence the engine). -/
theorem stop_loss_priority_counterexample :
    (run cfg1 [100, 100, 108] sigRoundTrip slAt95 tpAt110).map exitSummary
      = some [(108, none)] := by
  norm_num [run, runAux, stepBar, closePosAt, checkTP, checkSLTP, calculate_position_size,
    reset, cfg1, sigRoundTrip, slAt95, tpAt110, exitSummary]

/-- C2, evaluation at the failing input.  A position is opened on bar 1 of a
3-bar series and no exit condition ever fires: `BacktestEngine.run`
completes with the position (9.5 shares) still open, `current_trade` still
set, and an empty trade list — no forced `EndOfBacktest` close at the final
bar's close is performed, contradicting the claim (the
`MovingAverageCrossoverStrategy.backtest` variant in `src/core/strategy.py`
does append such an `end_of_backtest` trade). -/
theorem end_of_backtest_missing :
    (run cfg1 [100, 100, 110] sigBuyOnly levelNone levelNone).map dangling
      = some (19 / 2, true, 0) := by
  norm_num [run, runAux, stepBar, closePosAt, checkTP, checkSLTP, calculate_position_size,
    reset, cfg1, sigBuyOnly, levelNone, dangling]

/-- C3, counterexample.  A 1-bar price series is accepted without any error:
`run` returns a result with a single-point equity curve instead of failing
with `InvalidInputError` as the claim requires. -/
theorem single_bar_run_accepted :
    run cfg1 [100] sigHold levelNone levelNone
      = some { equity_curve := [1001], positions := [0], trades := [],
               final := { capital := 1001, position := 0, trades := [], current_trade := none } } :=
  rfl

/-- C3, amended.  `run` performs no input validation at all: only the empty
series aborts (the source dies with an unhandled `IndexError` at
`equity[0] = self.capital` before emitting anything, modelled by `none`),
while any 1-bar series is accepted and yields the single-point equity curve
`[initial_capital]`, the empty trade list, and an untouched engine state;
no `InvalidInputError` exists anywhere in the repository. -/
theorem no_input_validation (cfg : Config) (sig : ℕ → Int) (sl tp : ℕ → Option ℚ) (p : ℚ) :
    run cfg [] sig sl tp = none ∧
      run cfg [p] sig sl tp
        = some { equity_curve := [cfg.initial_capital], positions := [0], trades := [],
                 final := reset cfg } :=
  ⟨rfl, rfl⟩

/-- C8, counterexample.  The single trade of a run closed by a `Sell` signal
carries no `exit_reason` at all (the sell-signal branch of `run` never sets
the key; only the report layer later defaults a missing reason to
`'signal'`), contradicting the claim that every appended trade carries an
`exit_reason` and that a signal-closed trade carries `Signal`. -/
theorem signal_exit_reason_counterexample :
    (run cfg1 [100, 100, 110] sigRoundTrip levelNone levelNone).map reasonsOf
      = some [none] := by
  rw [out1_spec]; rfl

/-- C10.  An orphan `Sell` signal arriving while no position is open is
silently ignored: no branch of the per-bar dispatch of `run` matches
`signal == -1` with `position == 0`, so the bar leaves capital, the
position state and the trade list exactly unchanged and raises no error
(the equity point appended for the bar is then just the unchanged
capital). -/
theorem orphan_sell_ignored (cfg : Config) (sl tp : ℕ → Option ℚ) (i : ℕ) (price : ℚ)
    (s : EngineState) (h : s.position = 0) :
    stepBar cfg sl tp i price (-1) s = s := by
  norm_num [stepBar, h]

theorem orphan_sell_ignored_witness :
    stepBar cfg1 levelNone levelNone 5 100 (-1) (reset cfg1) = reset cfg1 :=
  orphan_sell_ignored cfg1 levelNone levelNone 5 100 (reset cfg1) rfl

/-- C1, amended.  Within one bar the engine's actual priority is: the
`Sell` signal first, then stop-loss, then take-profit, all triggered by the
bar's close alone.  With an open long position whose stop-loss and
take-profit levels are both breached by the close, a simultaneous `Sell`
signal closes the position at the bar's close with no `exit_reason`
recorded; only when no `Sell` signal fires does the stop-loss win over the
take-profit, closing at exactly the stop-loss level with reason
`stop_loss`. -/
theorem exit_priority_amended (cfg : Config) (sl tp : ℕ → Option ℚ) (i : ℕ)
    (price slp tpp : ℚ) (s : EngineState) (ct : OpenTrade)
    (hpos : 0 < s.position) (hct : s.current_trade = some ct)
    (hsl : ct.stop_loss = some slp) (_htp : ct.take_profit = some tpp)
    (hslHit : price ≤ slp) (_htpHit : tpp ≤ price) :
    stepBar cfg sl tp i price (-1) s = closePosAt cfg i price none s ct ∧
      stepBar cfg sl tp i price 0 s = closePosAt cfg i slp (some ExitReason.stop_loss) s ct := by
  constructor
  · norm_num [stepBar, hct, hpos]
  · norm_num [stepBar, checkSLTP, hct, hpos, hsl, hslHit]

theorem exit_priority_amended_witness :
    stepBar cfg1 levelNone levelNone 2 108 (-1) st0 = closePosAt cfg1 2 108 none st0 ct0 ∧
      stepBar cfg1 levelNone levelNone 2 108 0 st0
        = closePosAt cfg1 2 110 (some ExitReason.stop_loss) st0 ct0 :=
  exit_priority_amended cfg1 levelNone levelNone 2 108 110 105 st0 ct0
    (by norm_num [st0]) rfl rfl rfl (by norm_num) (by norm_num)

theorem runAux_equity_length (cfg : Config) (sig : ℕ → Int) (sl tp : ℕ → Option ℚ) :
    ∀ (l : List ℚ) (i : ℕ) (s : EngineState),
      (runAux cfg sig sl tp i l s).2.1.length = l.length := by
  intro l
  induction l with
  | nil => intro i s; rfl
  | cons p rest ih => intro i s; simp [runAux, ih]

/-- C5.  For every non-empty price series (the engine accepts exactly
those; the empty series dies before producing anything) the equity curve of
`run` has exactly one point per input bar, and its first point is
`initial_capital` (the unconditional seeding `equity[0] = self.capital`
right after `reset`). -/
theorem equity_curve_length (cfg : Config) (closes : List ℚ) (sig : ℕ → Int)
    (sl tp : ℕ → Option ℚ) (h : closes ≠ []) :
    (run cfg closes sig sl tp).map equityShape
      = some (closes.length, some cfg.initial_capital) := by
  match closes, h with
  | c :: rest, _ => simp [run, equityShape, runAux_equity_length]

theorem equity_curve_length_witness :
    (run cfg1 [100, 100] sigHold levelNone levelNone).map equityShape
      = some (2, some 1001) :=
  equity_curve_length cfg1 [100, 100] sigHold levelNone levelNone (by simp)

theorem stepBar_flat (cfg : Config) (sl tp : ℕ → Option ℚ) (i : ℕ) (price : ℚ) (sig : Int)
    (s : EngineState) (hpos : s.position = 0) (hsig : sig ≠ 1) :
    stepBar cfg sl tp i price sig s = s := by
  simp [stepBar, hpos, hsig]

theorem runAux_flat (cfg : Config) (sig : ℕ → Int) (sl tp : ℕ → Option ℚ) :
    ∀ (l : List ℚ) (i : ℕ) (s : EngineState), s.position = 0 →
      (∀ j, i ≤ j → j < i + l.length → sig j ≠ 1) →
      runAux cfg sig sl tp i l s
        = (s, List.replicate l.length s.capital, List.replicate l.length 0) := by
  intro l
  induction l with
  | nil => intro i s _ _; rfl
  | cons p rest ih =>
    intro i s h1 h2
    have hstep : stepBar cfg sl tp i p (sig i) s = s :=
      stepBar_flat cfg sl tp i p (sig i) s h1 (h2 i le_rfl (by simp))
    simp only [runAux, hstep]
    rw [ih (i + 1) s h1 (fun j hj1 hj2 => h2 j (by omega) (by simp; omega))]
    simp [h1, List.replicate_succ]

/-- C6.  A run in which no `Buy` signal is ever acted on (none of the bars
the loop visits, indices `1..n-1`, carries signal `1`) leaves the capital
state entirely unchanged: the whole equity curve is the constant
`initial_capital`, no trade is recorded, and the terminal capital equals
`initial_capital`. -/
theorem capital_conservation (cfg : Config) (closes : List ℚ) (sig : ℕ → Int)
    (sl tp : ℕ → Option ℚ) (h1 : closes ≠ [])
    (h2 : ∀ j, 1 ≤ j → j < closes.length → sig j ≠ 1) :
    (run cfg closes sig sl tp).map conservationShape
      = some (List.replicate closes.length cfg.initial_capital, [], cfg.initial_capital) := by
  match closes, h1, h2 with
  | c :: rest, _, h2 =>
    have hflat := runAux_flat cfg sig sl tp rest 1 (reset cfg) rfl
      (fun j hj1 hj2 => h2 j hj1 (by simp; omega))
    simp only [run, Option.map_some]
    rw [hflat]
    simp [conservationShape, reset, List.replicate_succ]

theorem capital_conservation_witness :
    (run cfg1 [100, 100] sigHold levelNone levelNone).map conservationShape
      = some ([1001, 1001], [], 1001) :=
  capital_conservation cfg1 [100, 100] sigHold levelNone levelNone (by simp)
    (fun j _ _ => by simp [sigHold])

theorem runAux_sig_congr (cfg : Config) (sa sb : ℕ → Int) (sl tp : ℕ → Option ℚ)
    (hsig : ∀ j, 1 ≤ j → sa j = sb j) :
    ∀ (l : List ℚ) (i : ℕ) (s : EngineState), 1 ≤ i →
      runAux cfg sa sl tp i l s = runAux cfg sb sl tp i l s := by
  intro l
  induction l with
  | nil => intros; rfl
  | cons p rest ih =>
    intro i s hi
    simp only [runAux]
    rw [hsig i hi, ih (i + 1) _ (by omega)]

/-- C9.  The loop of `run` starts at bar index 1, so the signal of bar 0 is
never read: two signal columns that agree everywhere except at index 0
produce identical run outputs — the same equity curve, position series,
trade list and terminal state. -/
theorem first_bar_signal_irrelevant (cfg : Config) (closes : List ℚ) (sa sb : ℕ → Int)
    (sl tp : ℕ → Option ℚ) (h : ∀ j, j ≠ 0 → sa j = sb j) :
    run cfg closes sa sl tp = run cfg closes sb sl tp := by
  cases closes with
  | nil => rfl
  | cons c rest =>
    simp only [run]
    rw [runAux_sig_congr cfg sa sb sl tp (fun j hj => h j (by omega)) rest 1 (reset cfg) le_rfl]

theorem first_bar_signal_irrelevant_witness :
    run cfg1 [100, 100] sigBuyAtZero levelNone levelNone
      = run cfg1 [100, 100] sigHold levelNone levelNone :=
  first_bar_signal_irrelevant cfg1 [100, 100] sigBuyAtZero sigHold levelNone levelNone
    (fun j hj => by simp [sigBuyAtZero, sigHold, hj])

theorem closePosAt_inv (cfg : Config) (i : ℕ) (v : ℚ) (r : Option ExitReason)
    (s : EngineState) (ct : OpenTrade) (h1 : ∀ t ∈ s.trades, tradeInv cfg t)
    (h2 : s.position = ct.shares)
    (hr : r = none ∨ r = some ExitReason.stop_loss ∨ r = some ExitReason.take_profit) :
    stateInv cfg (closePosAt cfg i v r s ct) := by
  constructor
  · intro t ht
    rcases List.mem_append.mp ht with ht | ht
    · exact h1 t ht
    · rcases List.mem_singleton.mp ht with rfl
      exact ⟨by simp [h2], hr⟩
  · intro ct' h
    simp [closePosAt] at h

theorem checkTP_inv (cfg : Config) (i : ℕ) (price : ℚ) (s : EngineState) (ct : OpenTrade)
    (h1 : ∀ t ∈ s.trades, tradeInv cfg t)
    (h2 : ∀ c, s.current_trade = some c → s.position = c.shares)
    (hsh : s.position = ct.shares) :
    stateInv cfg (checkTP cfg i price s ct) := by
  unfold checkTP
  split
  · split
    · exact closePosAt_inv cfg i _ _ s ct h1 hsh (Or.inr (Or.inr rfl))
    · exact ⟨h1, h2⟩
  · exact ⟨h1, h2⟩

theorem checkSLTP_inv (cfg : Config) (i : ℕ) (price : ℚ) (s : EngineState) (ct : OpenTrade)
    (h1 : ∀ t ∈ s.trades, tradeInv cfg t)
    (h2 : ∀ c, s.current_trade = some c → s.position = c.shares)
    (hsh : s.position = ct.shares) :
    stateInv cfg (checkSLTP cfg i price s ct) := by
  unfold checkSLTP
  split
  · split
    · exact closePosAt_inv cfg i _ _ s ct h1 hsh (Or.inr (Or.inl rfl))
    · exact checkTP_inv cfg i price s ct h1 h2 hsh
  · exact checkTP_inv cfg i price s ct h1 h2 hsh

theorem stepBar_inv (cfg : Config) (sl tp : ℕ → Option ℚ) (i : ℕ) (price : ℚ) (sig : Int)
    (s : EngineState) (h : stateInv cfg s) :
    stateInv cfg (stepBar cfg sl tp i price sig s) := by
  obtain ⟨h1, h2⟩ := h
  unfold stepBar
  split
  · refine ⟨h1, ?_⟩
    intro ct hct
    have := Option.some.inj hct
    subst this
    rfl
  · split
    · split
      case h_1 ct heq => exact closePosAt_inv cfg i price none s ct h1 (h2 ct heq) (Or.inl rfl)
      case h_2 => exact ⟨h1, by simp⟩
    · split
      · split
        case h_1 ct heq => exact checkSLTP_inv cfg i price s ct h1 h2 (h2 ct heq)
        case h_2 => exact ⟨h1, h2⟩
      · exact ⟨h1, h2⟩

theorem runAux_inv (cfg : Config) (sig : ℕ → Int) (sl tp : ℕ → Option ℚ) :
    ∀ (l : List ℚ) (i : ℕ) (s : EngineState), stateInv cfg s →
      stateInv cfg (runAux cfg sig sl tp i l s).1 := by
  intro l
  induction l with
  | nil => intro i s h; exact h
  | cons p rest ih =>
    intro i s h
    exact ih (i + 1) (stepBar cfg sl tp i p (sig i) s)
      (stepBar_inv cfg sl tp i p (sig i) s h)

theorem run_trades_inv (cfg : Config) (closes : List ℚ) (sig : ℕ → Int)
    (sl tp : ℕ → Option ℚ) (out : RunOutput) (h : run cfg closes sig sl tp = some out) :
    ∀ t ∈ out.trades, tradeInv cfg t := by
  cases closes with
  | nil => simp [run] at h
  | cons c rest =>
    have hout := (Option.some.inj h).symm
    subst hout
    exact (runAux_inv cfg sig sl tp rest 1 (reset cfg)
      ⟨by simp [reset], by simp [reset]⟩).1

/-- C4.  Commission symmetry: every trade recorded by `run` — in
particular the single round trip of a run that buys at `p1` and exits on a
`Sell` signal at `p2` with `s` shares — carries the commission-inclusive
profit `s * p2 * (1 - c) - s * p1 * (1 + c)`: commission is added to the
entry cost and subtracted from the exit proceeds. -/
theorem commission_symmetry (cfg : Config) (closes : List ℚ) (sig : ℕ → Int)
    (sl tp : ℕ → Option ℚ) (out : RunOutput) (t : Trade)
    (h1 : run cfg closes sig sl tp = some out) (h2 : t ∈ out.trades) :
    t.profit = t.shares * t.exit_price * (1 - cfg.commission)
                 - t.shares * t.entry_price * (1 + cfg.commission) :=
  (run_trades_inv cfg closes sig sl tp out h1 t h2).1

theorem commission_symmetry_witness :
    trade1.profit = trade1.shares * trade1.exit_price * (1 - cfg1.commission)
                      - trade1.shares * trade1.entry_price * (1 + cfg1.commission) :=
  commission_symmetry cfg1 [100, 100, 110] sigRoundTrip levelNone levelNone out1 trade1
    out1_spec (by simp [out1])

/-- C8, amended.  Every trade record appended by `run` carries an
`exit_reason` that is absent (`none` — trades closed by a `Sell` signal
never get the key; the report layer later displays the default
`'signal'`) or one of `'stop_loss'` / `'take_profit'`; in the functional
model the records of a completed run are values and are never mutated
after being appended. -/
theorem exit_reason_values (cfg : Config) (closes : List ℚ) (sig : ℕ → Int)
    (sl tp : ℕ → Option ℚ) (out : RunOutput) (t : Trade)
    (h1 : run cfg closes sig sl tp = some out) (h2 : t ∈ out.trades) :
    t.exit_reason = none ∨ t.exit_reason = some ExitReason.stop_loss ∨
      t.exit_reason = some ExitReason.take_profit :=
  (run_trades_inv cfg closes sig sl tp out h1 t h2).2

theorem exit_reason_values_witness :
    trade1.exit_reason = none ∨ trade1.exit_reason = some ExitReason.stop_loss ∨
      trade1.exit_reason = some ExitReason.take_profit :=
  exit_reason_values cfg1 [100, 100, 110] sigRoundTrip levelNone levelNone out1 trade1
    out1_spec (by simp [out1])

theorem pct_change_const (c : ℚ) :
    ∀ ec : List ℚ, (∀ x ∈ ec, x = c) → ∀ y ∈ pct_change ec, y = c / c - 1 := by
  intro ec
  induction ec with
  | nil => intro _ y hy; simp [pct_change] at hy
  | cons a tail ih =>
    intro h y hy
    cases tail with
    | nil => simp [pct_change] at hy
    | cons b t =>
      rw [pct_change] at hy
      rcases List.mem_cons.mp hy with h1 | h1
      · have ha : a = c := h a (by simp)
        have hb : b = c := h b (by simp)
        rw [h1, ha, hb]
      · exact ih (fun x hx => h x (List.mem_cons_of_mem a hx)) y h1

theorem sum_of_const (k : ℚ) :
    ∀ l : List ℚ, (∀ x ∈ l, x = k) → l.sum = l.length * k := by
  intro l
  induction l with
  | nil => intro _; simp
  | cons a t ih =>
    intro h
    have ha : a = k := h a (by simp)
    have ht := ih (fun x hx => h x (List.mem_cons_of_mem a hx))
    simp [ha, ht]
    ring

theorem mean_const (k : ℚ) (l : List ℚ) (hne : l ≠ []) (h : ∀ x ∈ l, x = k) :
    mean l = k := by
  have h0 : (l.length : ℚ) ≠ 0 := by
    simpa using fun hh => hne (List.length_eq_zero.mp hh)
  rw [mean, sum_of_const k l h, mul_div_cancel_left₀ k h0]

theorem varSum_const (k : ℚ) (l : List ℚ) (h : ∀ x ∈ l, x = k) : varSum l = 0 := by
  cases l with
  | nil => rfl
  | cons a t =>
    have hm : mean (a :: t) = k := mean_const k _ (by simp) h
    rw [varSum]
    apply List.sum_eq_zero
    intro y hy
    rcases List.mem_map.mp hy with ⟨x, hx, rfl⟩
    rw [hm, h x hx]
    ring

/-- C7.  A run whose equity curve is constant (zero volatility) has all
per-bar percentage returns equal, hence a zero centered square sum, so the
`returns.std() > 0` guard of line 228 is false and the Sharpe ratio is the
defined fallback `0` — no `NaN` and no division error. -/
theorem degenerate_sharpe (ec : List ℚ) (c : ℚ) (h : ∀ x ∈ ec, x = c) :
    sharpe_ratio ec = 0 := by
  have h3 : varSum (pct_change ec) = 0 :=
    varSum_const (c / c - 1) (pct_change ec) (pct_change_const c ec h)
  unfold sharpe_ratio
  rw [if_neg]
  rintro ⟨-, hlt⟩
  rw [h3] at hlt
  exact lt_irrefl 0 hlt

theorem degenerate_sharpe_witness : sharpe_ratio [1001, 1001, 1001] = 0 :=
  degenerate_sharpe [1001, 1001, 1001] 1001 (by simp)

end BacktestEngine
